import Mathlib

/-!
SimpleVector: a shallow embedding of `src/SimpleVector/src/simple_vector.h` and the
properties of its operations.

Modelling conventions.

* A vector is the triple of its private fields `items_`, `size_`, `capacity_`.  The field
  `capacity_` and the number of slots really held by `items_` are kept apart, because the
  source keeps them apart (the move constructor sets them independently).
* An iterator (`Type*`) is the index of the slot it points to: `begin()` is `0`, `end()` is
  `size_`.
* An operation returns `none` when the source would leave defined behaviour (a read or a
  write outside the allocation), fail an `assert`, or never return.  `At` returns an
  `Except` so that the `std::out_of_range` exception stays apart from these.
* Member functions that call themselves take a `fuel` argument bounding the call depth.
* `size_t` values are natural numbers.  The `int` loop counter of `Resize` is a 32-bit
  two's-complement integer: the conversion from `size_t` keeps the low 32 bits, the
  conversion to `size_t` is modulo `2^64`, and an increment of `INT_MAX` leaves defined
  behaviour.
* The contents of a fresh allocation are unspecified: they are given by an arbitrary
  function of the slot index (class `Fresh`), over which the general theorems quantify.
* Moving an element assigns its value to the destination slot; the moved-from slot keeps
  its value (as for `int`).  A by-reference `Type&&` parameter that the source overwrites
  is returned next to the result.
-/

/-- The class `ReserveProxyObj` (lines 9-17): the capacity hint. -/
structure ReserveProxyObj where
  capacity_ : Nat
deriving DecidableEq, Repr

/-- Member `ReserveProxyObj::GetCapacity` (line 13). -/
def ReserveProxyObj.GetCapacity (obj : ReserveProxyObj) : Nat := obj.capacity_

/-- The free function `Reserve(size_t capacity_to_reserve)` (lines 19-21). -/
def Reserve (capacity_to_reserve : Nat) : ReserveProxyObj :=
  ⟨capacity_to_reserve⟩

namespace SimpleVector

/-- Modelled from the spec: `ArrayPtr<Type>` (`array_ptr.h`, not part of the sources) is the
buffer owner of §6: an exclusive owner of one allocation of a fixed number of slots, with
unchecked indexed access.  It is the list of its slots. -/
abbrev ArrayPtr (α : Type) := List α

/-- Modelled from the spec: the contents of freshly allocated slots are unspecified (§3:
"unspecified/dead", §4.1: "no elements constructed").  The value `Fresh.slot i` stands
for whatever slot `i` of a fresh allocation holds. -/
class Fresh (α : Type) where
  slot : Nat → α

/-- The fresh contents used where the operations are evaluated on `Nat` elements: slot
`i` holds `170 + i`. -/
instance : Fresh Nat := ⟨fun i => 170 + i⟩

/-- Modelled from the spec: `ArrayPtr(size_t n)` "allocates exactly `n` default-constructible
slots", with unspecified contents. -/
def ArrayPtr.alloc {α : Type} [Fresh α] (n : Nat) : ArrayPtr α :=
  (List.range n).map Fresh.slot

/-- Modelled from the spec: indexed read `items_[i]`, undefined outside the allocation. -/
def readSlot {α : Type} (buf : ArrayPtr α) (i : Nat) : Option α :=
  buf[i]?

/-- Modelled from the spec: indexed write `items_[i] = x`, undefined outside the
allocation. -/
def writeSlot {α : Type} (buf : ArrayPtr α) (i : Nat) (x : α) : Option (ArrayPtr α) :=
  if i < buf.length then some (buf.set i x) else none

end SimpleVector

/-- The private fields of `SimpleVector<Type>` (lines 249-251). -/
structure SimpleVector (α : Type) where
  items_ : SimpleVector.ArrayPtr α
  size_ : Nat
  capacity_ : Nat
deriving DecidableEq, Repr

namespace SimpleVector

variable {α : Type}

/-- The exception thrown by `At`. -/
inductive Error where
  | out_of_range
deriving DecidableEq, Repr

/-- Default constructor `SimpleVector() noexcept = default` (line 29). -/
def empty : SimpleVector α :=
  ⟨[], 0, 0⟩

/-- Member `GetSize` (line 86). -/
def GetSize (v : SimpleVector α) : Nat := v.size_

/-- Member `GetCapacity` (line 89). -/
def GetCapacity (v : SimpleVector α) : Nat := v.capacity_

/-- Member `IsEmpty` (line 92). -/
def IsEmpty (v : SimpleVector α) : Bool := v.size_ == 0

/-- Member `operator[]` (lines 95, 98): unchecked access to the slot. -/
def index (v : SimpleVector α) (i : Nat) : Option α :=
  readSlot v.items_ i

/-- Member `At` (lines 102-116): throws when `index >= size_`, else the same slot access as
`operator[]`.  Nothing is written, so the vector itself is not part of the result. -/
def At (v : SimpleVector α) (i : Nat) : Except Error (Option α) :=
  if i ≥ v.size_ then .error Error.out_of_range else .ok (readSlot v.items_ i)

/-- Member `Clear` (line 119). -/
def Clear (v : SimpleVector α) : SimpleVector α :=
  { v with size_ := 0 }

/-- Non-const `begin()` (line 231): `&items_[0]`. -/
def begin (_v : SimpleVector α) : Nat := 0

/-- Non-const `end()` (line 234): `&items_[size_]`. -/
def end_ (v : SimpleVector α) : Nat := v.size_

/-- Const `begin()` (line 237): `&items_[0]`. -/
def begin_const (_v : SimpleVector α) : Nat := 0

/-- Const `end()` (line 240): `return end();` inside a const member function is a call
of the const overload, that is of itself. -/
def end_const : Nat → SimpleVector α → Option Nat
  | 0, _ => none
  | fuel + 1, v => end_const fuel v

/-- Const `cbegin()` (line 243): `return cbegin();`, a call of itself. -/
def cbegin : Nat → SimpleVector α → Option Nat
  | 0, _ => none
  | fuel + 1, v => cbegin fuel v

/-- Const `cend()` (line 246): `return end();`, a call of the const `end()`. -/
def cend : Nat → SimpleVector α → Option Nat
  | 0, _ => none
  | fuel + 1, v => end_const fuel v

/-- The loop of the constructor `SimpleVector(size_t, Type&&)` (lines 42-46): writes
`value` to the slot and then resets `value` to `Type{}`; `n` slots remain, the next is
`i`.  Returns the buffer and the final `value`. -/
def fillMoved [Inhabited α] : Nat → Nat → ArrayPtr α → α → Option (ArrayPtr α × α)
  | 0, _, buf, value => some (buf, value)
  | n + 1, i, buf, value =>
    (writeSlot buf i value).bind fun buf1 => fillMoved n (i + 1) buf1 default

/-- Constructor `SimpleVector(size_t size, Type&& value)` (lines 40-47), with the final `value`. -/
def mkSizeMove [Inhabited α] [Fresh α] (size : Nat) (value : α) : Option (SimpleVector α × α) :=
  (fillMoved size 0 (ArrayPtr.alloc size) value).map fun r =>
    (⟨r.1, size, size⟩, r.2)

/-- Constructor `explicit SimpleVector(size_t size)` (line 32): delegates with `Type{}`. -/
def mkSize [Inhabited α] [Fresh α] (size : Nat) : Option (SimpleVector α) :=
  (mkSizeMove size (default : α)).map fun r => r.1

/-- Algorithm `std::move(first, last, d_first)` between two buffers: `n` elements remain, the next
is read at `i` of `src` and written at `d` of `dst`. -/
def std_move : Nat → ArrayPtr α → Nat → ArrayPtr α → Nat → Option (ArrayPtr α)
  | 0, _, _, dst, _ => some dst
  | n + 1, src, i, dst, d =>
    (readSlot src i).bind fun x =>
      (writeSlot dst d x).bind fun dst1 => std_move n src (i + 1) dst1 (d + 1)

/-- Algorithm `std::move(first, last, d_first)` inside one buffer (front to back): `n` elements
remain, the next is read at `i` and written at `d`. -/
def std_move_within : Nat → Nat → Nat → ArrayPtr α → Option (ArrayPtr α)
  | 0, _, _, buf => some buf
  | n + 1, i, d, buf =>
    (readSlot buf i).bind fun x =>
      (writeSlot buf d x).bind fun buf1 => std_move_within n (i + 1) (d + 1) buf1

/-- Algorithm `std::move_backward(first, last, d_last)` inside one buffer (back to front): `n`
elements remain, `last` and `d_last` are the current ends. -/
def std_move_backward : Nat → Nat → Nat → ArrayPtr α → Option (ArrayPtr α)
  | 0, _, _, buf => some buf
  | n + 1, last, d_last, buf =>
    (readSlot buf (last - 1)).bind fun x =>
      (writeSlot buf (d_last - 1) x).bind fun buf1 =>
        std_move_backward n (last - 1) (d_last - 1) buf1

/-- Member `swap(SimpleVector&& other)` (lines 217-222): returns the new `*this` and the new
`other`. -/
def swapMove (v other : SimpleVector α) : SimpleVector α × SimpleVector α :=
  (⟨other.items_, other.size_, other.capacity_⟩, Clear ⟨v.items_, v.size_, v.capacity_⟩)

/-- Member `ChangeCapacity` (lines 253-259). -/
def ChangeCapacity [Inhabited α] [Fresh α] (v : SimpleVector α) (new_size : Nat) :
    Option (SimpleVector α) :=
  (mkSize new_size).bind fun new_arr =>
    let prev_size := v.size_
    (std_move (end_ v - begin v) v.items_ (begin v) new_arr.items_ (begin new_arr)).bind
      fun buf =>
        let r := swapMove v { new_arr with items_ := buf }
        some { r.1 with size_ := prev_size }

/-- Member `Resize` (lines 124-138), first statement. -/
def ResizeShrink (v : SimpleVector α) (new_size : Nat) : SimpleVector α :=
  if new_size < v.size_ ∨ new_size = v.size_ then { v with size_ := new_size } else v

/-- The largest value of the 32-bit `int`. -/
def INT_MAX : Int := 2147483647

/-- The conversion of a `size_t` to `int` (`int i = size_`, line 129): the low 32 bits,
read as a two's-complement number. -/
def toInt (n : Nat) : Int :=
  if n % 4294967296 < 2147483648 then ((n % 4294967296 : Nat) : Int)
  else ((n % 4294967296 : Nat) : Int) - 4294967296

/-- The conversion of an `int` to the 64-bit `size_t` (`i < new_size` and `items_[i]`,
lines 129-130): the value modulo `2^64`. -/
def toSizeT (i : Int) : Nat :=
  (i % 18446744073709551616).toNat

/-- The loop of `Resize` (lines 129-131) from the counter value `i`: while
`i < new_size`, write `Type()` to `items_[i]` and increment `i`; incrementing `INT_MAX`
overflows.  The first argument bounds the number of tests of the loop condition; an
`int` takes `2^32` values, so `2^32` always suffices. -/
def fillDefault [Inhabited α] : Nat → Int → Nat → ArrayPtr α → Option (ArrayPtr α)
  | 0, _, _, _ => none
  | fuel + 1, i, new_size, buf =>
    if toSizeT i < new_size then
      (writeSlot buf (toSizeT i) default).bind fun buf1 =>
        if i = INT_MAX then none else fillDefault fuel (i + 1) new_size buf1
    else some buf

/-- Member `Resize` (lines 124-138), second statement. -/
def ResizeFill [Inhabited α] (v : SimpleVector α) (new_size : Nat) :
    Option (SimpleVector α) :=
  if new_size ≤ v.capacity_ then
    (fillDefault 4294967296 (toInt v.size_) new_size v.items_).bind fun buf =>
      some { v with items_ := buf, size_ := new_size }
  else some v

/-- Member `Resize` (lines 124-138), third statement. -/
def ResizeGrow [Inhabited α] [Fresh α] (v : SimpleVector α) (new_size : Nat) :
    Option (SimpleVector α) :=
  if new_size > v.capacity_ then
    (ChangeCapacity v new_size).bind fun v1 => some { v1 with size_ := new_size }
  else some v

/-- Member `Resize` (lines 124-138): its three `if` statements in sequence. -/
def Resize [Inhabited α] [Fresh α] (v : SimpleVector α) (new_size : Nat) : Option (SimpleVector α) :=
  (ResizeFill (ResizeShrink v new_size) new_size).bind fun v2 => ResizeGrow v2 new_size

/-- The growth step shared by `PushBack` and `Insert` (lines 141-143, 148-150, 166-168,
180-184). -/
def growIfFull [Inhabited α] [Fresh α] (v : SimpleVector α) : Option (SimpleVector α) :=
  if v.size_ = v.capacity_ then
    (if v.size_ ≠ 0 then ChangeCapacity v (v.size_ * 2) else ChangeCapacity v 1)
  else some v

/-- Member `PushBack(const Type& item)` (lines 140-146). -/
def PushBack [Inhabited α] [Fresh α] (v : SimpleVector α) (item : α) : Option (SimpleVector α) :=
  (growIfFull v).bind fun v1 =>
    (writeSlot v1.items_ v1.size_ item).bind fun buf =>
      some { v1 with items_ := buf, size_ := v1.size_ + 1 }

/-- Member `PushBack(Type&& item)` (lines 147-156), with the final `item` (`Type{}`). -/
def PushBackMove [Inhabited α] [Fresh α] (v : SimpleVector α) (item : α) :
    Option (SimpleVector α × α) :=
  (growIfFull v).bind fun v1 =>
    (writeSlot v1.items_ v1.size_ item).bind fun buf =>
      some ({ v1 with items_ := buf, size_ := v1.size_ + 1 }, default)

/-- Member `Insert(ConstIterator pos, Type&& value)` (lines 176-194): returns the vector, the
returned iterator and the final `value`.  The overload taking `const Type&` (lines
163-174) is ill-formed (`++size_()` applies a `size_t`), so it has no instance to embed. -/
def Insert [Inhabited α] [Fresh α] (fuel : Nat) (v : SimpleVector α) (pos : Nat) (value : α) :
    Option (SimpleVector α × Nat × α) :=
  if begin v ≤ pos ∧ pos ≤ end_ v then
    (cbegin fuel v).bind fun first =>
      let idx := pos - first
      (growIfFull v).bind fun v1 =>
        let it := begin v1 + idx
        (std_move_backward (end_ v1 - it) (end_ v1) (end_ v1 + 1) v1.items_).bind fun buf1 =>
          (writeSlot buf1 idx value).bind fun buf2 =>
            some ({ v1 with items_ := buf2, size_ := v1.size_ + 1 }, begin v1 + idx, default)
  else none

/-- Member `PopBack` (lines 196-199). -/
def PopBack (v : SimpleVector α) : SimpleVector α :=
  if IsEmpty v then v else { v with size_ := v.size_ - 1 }

/-- Member `Erase(ConstIterator pos)` (lines 201-208): returns the vector and the returned
iterator. -/
def Erase (fuel : Nat) (v : SimpleVector α) (pos : Nat) : Option (SimpleVector α × Nat) :=
  if begin v ≤ pos ∧ pos < end_ v then
    (cbegin fuel v).bind fun first =>
      let idx := pos - first
      let it := begin v + idx
      (std_move_within (end_ v - (it + 1)) (it + 1) it v.items_).bind fun buf =>
        some ({ v with items_ := buf, size_ := v.size_ - 1 }, pos)
  else none

/-- Member `Reserve` (lines 224-228). -/
def Reserve [Inhabited α] [Fresh α] (v : SimpleVector α) (new_capacity : Nat) :
    Option (SimpleVector α) :=
  if v.capacity_ < new_capacity then ChangeCapacity v new_capacity else some v

/-- Algorithm `std::fill(first, last, value)`: `n` slots remain, the next is `i`. -/
def std_fill : Nat → Nat → ArrayPtr α → α → Option (ArrayPtr α)
  | 0, _, buf, _ => some buf
  | n + 1, i, buf, value => (writeSlot buf i value).bind fun buf1 => std_fill n (i + 1) buf1 value

/-- Constructor `SimpleVector(size_t size, const Type& value)` (lines 35-38). -/
def mkSizeCopy [Fresh α] (size : Nat) (value : α) : Option (SimpleVector α) :=
  let v : SimpleVector α := ⟨ArrayPtr.alloc size, size, size⟩
  (std_fill (end_ v - begin v) (begin v) v.items_ value).map fun buf => { v with items_ := buf }

/-- Constructor `SimpleVector(std::initializer_list<Type> init)` (lines 50-53). -/
def ofInitializerList [Fresh α] (init : List α) : Option (SimpleVector α) :=
  (std_move init.length init 0 (ArrayPtr.alloc init.length) 0).map fun buf =>
    ⟨buf, init.length, init.length⟩

/-- Algorithm `std::copy(first, last, d_first)` between two buffers: `n` elements remain,
the next is read at `i` of `src` and written at `d` of `dst`. -/
def std_copy : Nat → ArrayPtr α → Nat → ArrayPtr α → Nat → Option (ArrayPtr α)
  | 0, _, _, dst, _ => some dst
  | n + 1, src, i, dst, d =>
    (readSlot src i).bind fun x =>
      (writeSlot dst d x).bind fun dst1 => std_copy n src (i + 1) dst1 (d + 1)

/-- Copy constructor `SimpleVector(const SimpleVector& other)` (lines 55-59): `other` is
const, so `other.begin()` and `other.end()` are the const overloads. -/
def copyCtor [Fresh α] (fuel : Nat) (other : SimpleVector α) : Option (SimpleVector α) :=
  let v : SimpleVector α := ⟨ArrayPtr.alloc (GetSize other), GetSize other, GetSize other⟩
  (end_const fuel other).bind fun last =>
    (std_copy (last - begin_const other) other.items_ (begin_const other) v.items_
      (begin v)).bind fun buf => some { v with items_ := buf }

/-- Move constructor `SimpleVector(SimpleVector&& other)` (lines 61-68), for `this` and
`other` distinct objects: returns the constructed vector and the new `other`.  The buffer
allocated with `other.size_` slots goes to `other`; `other.capacity_` is read, not
written. -/
def moveCtor [Fresh α] (other : SimpleVector α) : SimpleVector α × SimpleVector α :=
  let fresh : ArrayPtr α := ArrayPtr.alloc other.size_
  (⟨other.items_, other.size_, other.capacity_⟩, Clear ⟨fresh, other.size_, other.capacity_⟩)

/-- Constructor `SimpleVector(ReserveProxyObj obj)` (lines 70-71). -/
def ofReserveProxyObj [Fresh α] (obj : ReserveProxyObj) : SimpleVector α :=
  ⟨ArrayPtr.alloc obj.GetCapacity, 0, obj.GetCapacity⟩

/-- Member `swap(SimpleVector& other)` (lines 210-214): returns the new `*this` and the
new `other`. -/
def swap (v other : SimpleVector α) : SimpleVector α × SimpleVector α :=
  (⟨other.items_, other.size_, other.capacity_⟩, ⟨v.items_, v.size_, v.capacity_⟩)

/-- Copy assignment `operator=` (lines 73-83), for `this` and `rhs` distinct objects:
returns the new `*this`. -/
def assign [Fresh α] (fuel : Nat) (v rhs : SimpleVector α) : Option (SimpleVector α) :=
  if IsEmpty rhs then some (Clear v)
  else (copyCtor fuel rhs).bind fun copy => some (swap v copy).1

/-- Algorithm `std::equal(first1, last1, first2, last2)` on two buffers, the loop after
the comparison of the two distances: `n` elements remain. -/
def std_equal_loop [DecidableEq α] : Nat → ArrayPtr α → Nat → ArrayPtr α → Nat → Option Bool
  | 0, _, _, _, _ => some true
  | n + 1, buf1, i, buf2, j =>
    (readSlot buf1 i).bind fun x =>
      (readSlot buf2 j).bind fun y =>
        if x = y then std_equal_loop n buf1 (i + 1) buf2 (j + 1) else some false

/-- Algorithm `std::equal(first1, last1, first2, last2)` on two buffers: false when the
two ranges differ in length, else the elementwise comparison. -/
def std_equal [DecidableEq α] (buf1 : ArrayPtr α) (first1 last1 : Nat) (buf2 : ArrayPtr α)
    (first2 last2 : Nat) : Option Bool :=
  if last1 - first1 ≠ last2 - first2 then some false
  else std_equal_loop (last1 - first1) buf1 first1 buf2 first2

/-- Algorithm `std::lexicographical_compare(first1, last1, first2, last2)` on two
buffers: `n` bounds the remaining steps (the length of the first range). -/
def std_lexicographical_compare [LT α] [∀ a b : α, Decidable (a < b)] :
    Nat → ArrayPtr α → Nat → Nat → ArrayPtr α → Nat → Nat → Option Bool
  | 0, _, first1, last1, _, first2, last2 =>
    some (decide (first1 = last1) && decide (first2 ≠ last2))
  | n + 1, buf1, first1, last1, buf2, first2, last2 =>
    if first1 ≠ last1 ∧ first2 ≠ last2 then
      (readSlot buf1 first1).bind fun x =>
        (readSlot buf2 first2).bind fun y =>
          if x < y then some true
          else if y < x then some false
          else std_lexicographical_compare n buf1 (first1 + 1) last1 buf2 (first2 + 1) last2
    else some (decide (first1 = last1) && decide (first2 ≠ last2))

/-- The free `operator==` (lines 262-266). -/
def opEq [DecidableEq α] (fuel : Nat) (lhs rhs : SimpleVector α) : Option Bool :=
  (cbegin fuel lhs).bind fun first1 =>
    (cend fuel lhs).bind fun last1 =>
      (cbegin fuel rhs).bind fun first2 =>
        (cend fuel rhs).bind fun last2 =>
          std_equal lhs.items_ first1 last1 rhs.items_ first2 last2

/-- The free `operator!=` (lines 268-272). -/
def opNe [DecidableEq α] (fuel : Nat) (lhs rhs : SimpleVector α) : Option Bool :=
  (opEq fuel lhs rhs).map fun b => !b

/-- The free `operator<` (lines 274-279). -/
def opLt [LT α] [∀ a b : α, Decidable (a < b)] (fuel : Nat) (lhs rhs : SimpleVector α) :
    Option Bool :=
  (cbegin fuel lhs).bind fun first1 =>
    (cend fuel lhs).bind fun last1 =>
      (cbegin fuel rhs).bind fun first2 =>
        (cend fuel rhs).bind fun last2 =>
          std_lexicographical_compare (last1 - first1) lhs.items_ first1 last1
            rhs.items_ first2 last2

/-- The free `operator<=` (lines 281-285): `!(rhs < lhs)`. -/
def opLe [LT α] [∀ a b : α, Decidable (a < b)] (fuel : Nat) (lhs rhs : SimpleVector α) :
    Option Bool :=
  (opLt fuel rhs lhs).map fun b => !b

/-- The free `operator>` (lines 287-291): `rhs < lhs`. -/
def opGt [LT α] [∀ a b : α, Decidable (a < b)] (fuel : Nat) (lhs rhs : SimpleVector α) :
    Option Bool :=
  opLt fuel rhs lhs

/-- The free `operator>=` (lines 293-297): `!(rhs > lhs)`. -/
def opGe [LT α] [∀ a b : α, Decidable (a < b)] (fuel : Nat) (lhs rhs : SimpleVector α) :
    Option Bool :=
  (opGt fuel rhs lhs).map fun b => !b

/-- The logical sequence of a vector: the slots at the indices below `size_`. -/
def toList (v : SimpleVector α) : List α :=
  v.items_.take v.size_

/-- The data-model invariant of §3: the buffer holds `capacity_` slots and
`size_ ≤ capacity_`. -/
def WellFormed (v : SimpleVector α) : Prop :=
  v.items_.length = v.capacity_ ∧ v.size_ ≤ v.capacity_

instance (v : SimpleVector α) : Decidable (WellFormed v) := by
  unfold WellFormed; infer_instance

/-- The size is within the capacity and within the slots the buffer holds: what
`ChangeCapacity` needs to read the elements it moves. -/
def SizeInBounds (v : SimpleVector α) : Prop :=
  v.size_ ≤ v.items_.length ∧ v.size_ ≤ v.capacity_

instance (v : SimpleVector α) : Decidable (SizeInBounds v) := by
  unfold SizeInBounds; infer_instance

/-- The capacity reached by repeated `PushBack` from the empty vector: `0` while the
vector is empty, else the least power of two that is at least the size. -/
def GrownFromEmpty (v : SimpleVector α) : Prop :=
  (v.size_ = 0 ∧ v.capacity_ = 0) ∨
    (0 < v.size_ ∧ ∃ k, v.capacity_ = 2 ^ k ∧ v.size_ ≤ 2 ^ k ∧
      ∀ m, v.size_ ≤ 2 ^ m → 2 ^ k ≤ 2 ^ m)

/-- A sequence of `PushBack` calls, one per element of the list, in order. -/
def pushAll [Inhabited α] [Fresh α] : SimpleVector α → List α → Option (SimpleVector α)
  | v, [] => some v
  | v, x :: xs => (PushBack v x).bind fun v1 => pushAll v1 xs

end SimpleVector

namespace SimpleVector

variable {α : Type}

/-! ## The buffer primitives -/

theorem writeSlot_of_lt (buf : ArrayPtr α) (i : Nat) (x : α) (h : i < buf.length) :
    writeSlot buf i x = some (buf.set i x) := by
  simp [writeSlot, h]

theorem readSlot_of_lt (buf : ArrayPtr α) (i : Nat) (h : i < buf.length) :
    readSlot buf i = some (buf.get ⟨i, h⟩) := by
  simp [readSlot, List.getElem?_eq_getElem h]

theorem alloc_length [Fresh α] (n : Nat) : (ArrayPtr.alloc n : ArrayPtr α).length = n := by
  simp [ArrayPtr.alloc]

theorem fillMoved_spec [Inhabited α] :
    ∀ (n i : Nat) (buf : ArrayPtr α) (value : α), i + n ≤ buf.length →
      ∃ r, fillMoved n i buf value = some r ∧ r.1.length = buf.length ∧
        ∀ j, r.1[j]? =
          if i ≤ j ∧ j < i + n then (if j = i then some value else some default)
          else buf[j]? := by
  intro n
  induction n with
  | zero =>
    intro i buf value _
    refine ⟨(buf, value), rfl, rfl, ?_⟩
    intro j
    rw [if_neg (by omega)]
  | succ k ih =>
    intro i buf value hb
    have hil : i < buf.length := by omega
    obtain ⟨r, hr, hlen, hget⟩ := ih (i + 1) (buf.set i value) default (by simp; omega)
    refine ⟨r, ?_, ?_, ?_⟩
    · rw [fillMoved, writeSlot_of_lt _ _ _ hil]
      simpa using hr
    · simpa using hlen
    · intro j
      rw [hget j, List.getElem?_set]
      by_cases h1 : i + 1 ≤ j ∧ j < i + 1 + k
      · have h2 : i ≤ j ∧ j < i + (k + 1) := by omega
        have h3 : j ≠ i := by omega
        simp [h1, h2, h3]
      · by_cases h4 : i = j
        · subst h4
          have h2 : i ≤ i ∧ i < i + (k + 1) := by omega
          simp [h1, h2, hil]
        · have h2 : ¬ (i ≤ j ∧ j < i + (k + 1)) := by omega
          simp [h1, h2, h4]

theorem mkSize_eq [Inhabited α] [Fresh α] (n : Nat) :
    mkSize n = some (⟨List.replicate n default, n, n⟩ : SimpleVector α) := by
  obtain ⟨r, hr, hlen, hget⟩ :=
    fillMoved_spec n 0 (ArrayPtr.alloc n : ArrayPtr α) default (by rw [alloc_length]; omega)
  have hitems : r.1 = List.replicate n default := by
    apply List.ext_getElem?
    intro j
    rw [hget j, List.getElem?_replicate]
    by_cases hj : j < n
    · rw [if_pos (by omega), if_pos hj]
      simp
    · rw [if_neg (by omega), if_neg hj]
      exact List.getElem?_eq_none (by rw [alloc_length]; omega)
  simp [mkSize, mkSizeMove, hr, hitems]

theorem std_move_spec (src : ArrayPtr α) :
    ∀ (n i : Nat) (dst : ArrayPtr α) (d : Nat), i + n ≤ src.length → d + n ≤ dst.length →
      ∃ r, std_move n src i dst d = some r ∧ r.length = dst.length ∧
        ∀ j, r[j]? = if d ≤ j ∧ j < d + n then src[i + (j - d)]? else dst[j]? := by
  intro n
  induction n with
  | zero =>
    intro i dst d _ _
    refine ⟨dst, rfl, rfl, ?_⟩
    intro j
    rw [if_neg (by omega)]
  | succ k ih =>
    intro i dst d hs hd
    have hi : i < src.length := by omega
    have hdl : d < dst.length := by omega
    obtain ⟨r, hr, hlen, hget⟩ :=
      ih (i + 1) (dst.set d (src.get ⟨i, hi⟩)) (d + 1) (by omega) (by simp; omega)
    refine ⟨r, ?_, ?_, ?_⟩
    · rw [std_move, readSlot_of_lt _ _ hi]
      simp only [Option.bind_eq_bind, Option.some_bind]
      rw [writeSlot_of_lt _ _ _ hdl]
      simpa using hr
    · simpa using hlen
    · intro j
      rw [hget j, List.getElem?_set]
      by_cases h1 : d + 1 ≤ j ∧ j < d + 1 + k
      · have h2 : d ≤ j ∧ j < d + (k + 1) := by omega
        have h3 : i + 1 + (j - (d + 1)) = i + (j - d) := by omega
        simp [h1, h2, h3]
      · by_cases h4 : d = j
        · subst h4
          have h2 : d ≤ d ∧ d < d + (k + 1) := by omega
          simp [h1, h2, hdl, List.getElem?_eq_getElem hi]
        · have h2 : ¬ (d ≤ j ∧ j < d + (k + 1)) := by omega
          simp [h1, h2, h4]

theorem toInt_of_lt (k : Nat) (h : k < 2147483648) : toInt k = (k : Int) := by
  have h1 : k % 4294967296 = k := Nat.mod_eq_of_lt (by omega)
  rw [toInt, h1, if_pos h]

theorem toSizeT_natCast (k : Nat) (h : k < 2147483648) : toSizeT (k : Int) = k := by
  have h1 : (k : Int) % 18446744073709551616 = (k : Int) :=
    Int.emod_eq_of_lt (by omega) (by omega)
  rw [toSizeT, h1, Int.toNat_natCast]

theorem fillDefault_spec [Inhabited α] :
    ∀ (m k n fuel : Nat) (buf : ArrayPtr α), k + m = n → n ≤ buf.length →
      n < 2147483648 → m < fuel →
      ∃ r, fillDefault fuel (k : Int) n buf = some r ∧ r.length = buf.length ∧
        ∀ j, r[j]? = if k ≤ j ∧ j < n then some default else buf[j]? := by
  intro m
  induction m with
  | zero =>
    intro k n fuel buf hk _ hn hfuel
    obtain ⟨f, rfl⟩ := Nat.exists_eq_succ_of_ne_zero (Nat.pos_iff_ne_zero.mp hfuel)
    refine ⟨buf, ?_, rfl, ?_⟩
    · rw [fillDefault, toSizeT_natCast k (by omega), if_neg (by omega)]
    · intro j
      rw [if_neg (by omega)]
  | succ m ih =>
    intro k n fuel buf hk hlen hn hfuel
    obtain ⟨f, rfl⟩ := Nat.exists_eq_succ_of_ne_zero (by omega : fuel ≠ 0)
    have hkl : k < buf.length := by omega
    have hmax : ¬ ((k : Int) = INT_MAX) := by
      unfold INT_MAX
      omega
    obtain ⟨r, hr, hrl, hget⟩ :=
      ih (k + 1) n f (buf.set k default) (by omega) (by simp; omega) hn (by omega)
    refine ⟨r, ?_, ?_, ?_⟩
    · rw [fillDefault, toSizeT_natCast k (by omega), if_pos (by omega),
        writeSlot_of_lt _ _ _ hkl]
      simp only [Option.bind_eq_bind, Option.some_bind]
      rw [if_neg hmax]
      simpa using hr
    · simpa using hrl
    · intro j
      rw [hget j, List.getElem?_set]
      by_cases h1 : k + 1 ≤ j ∧ j < n
      · have h2 : k ≤ j ∧ j < n := by omega
        simp [h1, h2]
      · by_cases h4 : k = j
        · subst h4
          have h2 : k ≤ k ∧ k < n := by omega
          simp [h1, h2, hkl]
        · have h2 : ¬ (k ≤ j ∧ j < n) := by omega
          simp [h1, h2, h4]

/-! ## Reallocation -/

theorem ChangeCapacity_spec [Inhabited α] [Fresh α] (v : SimpleVector α) (m : Nat)
    (hs : v.size_ ≤ v.items_.length) (hm : v.size_ ≤ m) :
    ∃ r, ChangeCapacity v m = some r ∧ r.size_ = v.size_ ∧ r.capacity_ = m ∧
      r.items_.length = m ∧
      ∀ j, r.items_[j]? =
        if j < v.size_ then v.items_[j]? else if j < m then some default else none := by
  obtain ⟨buf, hbuf, hlen, hget⟩ :=
    std_move_spec v.items_ v.size_ 0 (List.replicate m (default : α)) 0
      (by omega) (by simp; omega)
  refine ⟨⟨buf, v.size_, m⟩, ?_, rfl, rfl, ?_, ?_⟩
  · simp [ChangeCapacity, mkSize_eq, end_, begin, swapMove, hbuf]
  · simpa using hlen
  · intro j
    show buf[j]? = _
    rw [hget j]
    by_cases h : j < v.size_
    · simp [h]
    · simp [h, List.getElem?_replicate]

/-! ## PushBack -/

theorem growIfFull_spec [Inhabited α] [Fresh α] (v : SimpleVector α) (hwf : WellFormed v) :
    ∃ r, growIfFull v = some r ∧ r.size_ = v.size_ ∧ r.items_.length = r.capacity_ ∧
      r.size_ < r.capacity_ ∧
      r.capacity_ = (if v.size_ = v.capacity_ then max 1 (2 * v.capacity_) else v.capacity_) ∧
      ∀ j, j < v.size_ → r.items_[j]? = v.items_[j]? := by
  obtain ⟨hlen, hle⟩ := hwf
  by_cases hfull : v.size_ = v.capacity_
  · by_cases h0 : v.size_ = 0
    · obtain ⟨r, hr, hsz, hcap, hl, hget⟩ :=
        ChangeCapacity_spec v 1 (by omega) (by omega)
      refine ⟨r, ?_, hsz, by omega, by omega, ?_, ?_⟩
      · rw [growIfFull, if_pos hfull, if_neg (not_not.mpr h0), hr]
      · rw [if_pos hfull, hcap]; omega
      · intro j hj; rw [hget j, if_pos hj]
    · obtain ⟨r, hr, hsz, hcap, hl, hget⟩ :=
        ChangeCapacity_spec v (v.size_ * 2) (by omega) (by omega)
      refine ⟨r, ?_, hsz, by omega, by omega, ?_, ?_⟩
      · rw [growIfFull, if_pos hfull, if_pos h0, hr]
      · rw [if_pos hfull, hcap]; omega
      · intro j hj; rw [hget j, if_pos hj]
  · refine ⟨v, by simp [growIfFull, hfull], rfl, hlen, by omega, by simp [hfull], ?_⟩
    intro j _; rfl

theorem PushBack_spec [Inhabited α] [Fresh α] (v : SimpleVector α) (x : α) (hwf : WellFormed v) :
    ∃ r, PushBack v x = some r ∧ PushBackMove v x = some (r, default) ∧
      r.size_ = v.size_ + 1 ∧ r.items_.length = r.capacity_ ∧
      r.capacity_ = (if v.size_ = v.capacity_ then max 1 (2 * v.capacity_) else v.capacity_) ∧
      (∀ j, j < v.size_ → r.items_[j]? = v.items_[j]?) ∧ r.items_[v.size_]? = some x := by
  obtain ⟨g, hg, hsz, hl, hlt, hcap, hget⟩ := growIfFull_spec v hwf
  have hw : writeSlot g.items_ g.size_ x = some (g.items_.set g.size_ x) :=
    writeSlot_of_lt _ _ _ (by omega)
  refine ⟨⟨g.items_.set g.size_ x, g.size_ + 1, g.capacity_⟩, ?_, ?_, ?_, ?_, hcap, ?_, ?_⟩
  · simp [PushBack, hg, hw]
  · simp [PushBackMove, hg, hw]
  · show g.size_ + 1 = v.size_ + 1
    omega
  · show (g.items_.set g.size_ x).length = g.capacity_
    simpa using hl
  · intro j hj
    show (g.items_.set g.size_ x)[j]? = _
    rw [List.getElem?_set, if_neg (by omega)]
    exact hget j hj
  · show (g.items_.set g.size_ x)[v.size_]? = _
    rw [List.getElem?_set, if_pos hsz, if_pos (by omega)]

theorem toList_getElem? (v : SimpleVector α) (j : Nat) :
    (toList v)[j]? = if j < v.size_ then v.items_[j]? else none := by
  simp [toList, List.getElem?_take]

theorem toList_length (v : SimpleVector α) (h : v.size_ ≤ v.items_.length) :
    (toList v).length = v.size_ := by
  simp [toList, h]

theorem toList_snoc (v r : SimpleVector α) (x : α) (hv : v.size_ ≤ v.items_.length)
    (hsz : r.size_ = v.size_ + 1) (hget : ∀ j, j < v.size_ → r.items_[j]? = v.items_[j]?)
    (hx : r.items_[v.size_]? = some x) :
    toList r = toList v ++ [x] := by
  apply List.ext_getElem?
  intro j
  rw [List.getElem?_append, toList_length v hv, toList_getElem?, toList_getElem?]
  by_cases h1 : j < v.size_
  · rw [if_pos (by omega), if_pos h1, if_pos h1]
    exact hget j h1
  · rw [if_neg h1]
    by_cases h2 : j = v.size_
    · subst h2
      rw [if_pos (by omega), hx]
      simp
    · rw [if_neg (by omega)]
      have : 1 ≤ j - v.size_ := by omega
      simp [this]

/-- On a vector whose buffer holds `capacity_` slots and whose size does not exceed its
capacity, both `PushBack` overloads return, with the same vector: its size is one
more, the slot at the old size holds the pushed value, the slots below it are unchanged,
and the logical sequence is the old one followed by the value. -/
theorem PushBack_appends [Inhabited α] [Fresh α] (v : SimpleVector α) (x : α) (hwf : WellFormed v) :
    ∃ r, PushBack v x = some r ∧ PushBackMove v x = some (r, default) ∧
      GetSize r = GetSize v + 1 ∧ index r (GetSize v) = some x ∧
      (∀ i, i < GetSize v → index r i = index v i) ∧
      toList r = toList v ++ [x] := by
  obtain ⟨r, h1, h2, hsz, _, _, hget, hx⟩ := PushBack_spec v x hwf
  exact ⟨r, h1, h2, hsz, hx, hget,
    toList_snoc v r x (by have := hwf.1; have := hwf.2; omega) hsz hget hx⟩

/-- The two `PushBack` overloads at a concrete vector: pushing 7 onto the full vector
[1, 2]. -/
theorem PushBack_appends_witness :
    WellFormed (⟨[1, 2], 2, 2⟩ : SimpleVector Nat) ∧
    ∃ r, PushBack (⟨[1, 2], 2, 2⟩ : SimpleVector Nat) 7 = some r ∧
      PushBackMove (⟨[1, 2], 2, 2⟩ : SimpleVector Nat) 7 = some (r, default) ∧
      GetSize r = GetSize (⟨[1, 2], 2, 2⟩ : SimpleVector Nat) + 1 ∧
      index r (GetSize (⟨[1, 2], 2, 2⟩ : SimpleVector Nat)) = some 7 ∧
      (∀ i, i < GetSize (⟨[1, 2], 2, 2⟩ : SimpleVector Nat) →
        index r i = index (⟨[1, 2], 2, 2⟩ : SimpleVector Nat) i) ∧
      toList r = toList (⟨[1, 2], 2, 2⟩ : SimpleVector Nat) ++ [7] :=
  ⟨by decide, PushBack_appends ⟨[1, 2], 2, 2⟩ 7 (by decide)⟩

/-! ## The self-calling const accessors -/

theorem cbegin_none (v : SimpleVector α) : ∀ fuel, cbegin fuel v = none := by
  intro fuel
  induction fuel with
  | zero => rfl
  | succ k ih => rw [cbegin, ih]

theorem Insert_none [Inhabited α] [Fresh α] (fuel : Nat) (v : SimpleVector α) (pos : Nat) (value : α) :
    Insert fuel v pos value = none := by
  unfold Insert
  split
  · rw [cbegin_none]; rfl
  · rfl

theorem Erase_none (fuel : Nat) (v : SimpleVector α) (pos : Nat) :
    Erase fuel v pos = none := by
  unfold Erase
  split
  · rw [cbegin_none]; rfl
  · rfl

/-- C2: `Insert` at the end of the full vector [1, 2] (size 2 = capacity 2), where the
claim expects a vector of capacity 4: whatever the call depth allowed, the call produces
no vector, because `cbegin()` (line 243) calls itself before the growth step. -/
theorem Insert_full_no_result :
    ∀ fuel, Insert fuel (⟨[1, 2], 2, 2⟩ : SimpleVector Nat) 2 9 = none :=
  fun fuel => Insert_none fuel _ _ _

/-! ## Repeated PushBack -/

theorem GrownFromEmpty_PushBack [Inhabited α] [Fresh α] (v r : SimpleVector α)
    (hg : GrownFromEmpty v) (hsz : r.size_ = v.size_ + 1)
    (hcap : r.capacity_ =
      (if v.size_ = v.capacity_ then max 1 (2 * v.capacity_) else v.capacity_)) :
    GrownFromEmpty r := by
  right
  refine ⟨by omega, ?_⟩
  rcases hg with ⟨h0, hc0⟩ | ⟨hpos, k, hk, hle, hmin⟩
  · refine ⟨0, ?_, by omega, ?_⟩
    · rw [hcap, if_pos (by omega), hc0]; rfl
    · intro m _
      exact Nat.pow_le_pow_right (by omega) (Nat.zero_le m)
  · by_cases hfull : v.size_ = v.capacity_
    · refine ⟨k + 1, ?_, ?_, ?_⟩
      · rw [hcap, if_pos hfull, hk, pow_succ]
        have : 0 < 2 ^ k := Nat.pow_pos (by omega)
        omega
      · rw [hsz, hfull, hk, pow_succ]
        have : 0 < 2 ^ k := Nat.pow_pos (by omega)
        omega
      · intro m hm
        have hlt : 2 ^ k < 2 ^ m := by omega
        have hkm : k < m := (Nat.pow_lt_pow_iff_right (by omega)).mp hlt
        exact Nat.pow_le_pow_right (by omega) hkm
    · refine ⟨k, ?_, ?_, ?_⟩
      · rw [hcap, if_neg hfull, hk]
      · omega
      · intro m hm
        exact hmin m (by omega)

theorem pushAll_spec [Inhabited α] [Fresh α] (xs : List α) :
    ∀ v : SimpleVector α, WellFormed v → GrownFromEmpty v →
      ∃ r, pushAll v xs = some r ∧ WellFormed r ∧ GrownFromEmpty r ∧
        r.size_ = v.size_ + xs.length ∧ toList r = toList v ++ xs := by
  induction xs with
  | nil =>
    intro v hwf hg
    exact ⟨v, rfl, hwf, hg, by simp, by simp⟩
  | cons x xs ih =>
    intro v hwf hg
    obtain ⟨r1, h1, _, hsz, hl, hcap, hget, hx⟩ := PushBack_spec v x hwf
    have hg1 : GrownFromEmpty r1 := GrownFromEmpty_PushBack v r1 hg hsz hcap
    have hwf1 : WellFormed r1 := by
      refine ⟨hl, ?_⟩
      rcases hg1 with ⟨h0, _⟩ | ⟨_, k, hk, hle, _⟩
      · omega
      · omega
    obtain ⟨r, hr, hwfr, hgr, hszr, hlist⟩ := ih r1 hwf1 hg1
    refine ⟨r, ?_, hwfr, hgr, ?_, ?_⟩
    · simp [pushAll, h1, hr]
    · simp only [List.length_cons]; omega
    · rw [hlist, toList_snoc v r1 x (by have := hwf.1; have := hwf.2; omega) hsz hget hx]
      simp

/-- C3: from the default-constructed vector, `PushBack` of `x1 .. xK` in turn returns a
vector of size `K` whose logical sequence is `x1 .. xK`, of capacity at least `K`; the
capacity is `0` for `K = 0` and otherwise the least power of two that is at least `K`.
Pushing 1, 2, 3 gives size 3, capacity 4 and the elements 1, 2, 3. -/
theorem pushAll_empty [Inhabited α] [Fresh α] :
    (∀ xs : List α, ∃ r, pushAll (empty : SimpleVector α) xs = some r ∧
      GetSize r = xs.length ∧ toList r = xs ∧ xs.length ≤ GetCapacity r ∧
      (xs.length = 0 → GetCapacity r = 0) ∧
      (0 < xs.length → ∃ k, GetCapacity r = 2 ^ k ∧ xs.length ≤ 2 ^ k ∧
        ∀ m, xs.length ≤ 2 ^ m → 2 ^ k ≤ 2 ^ m)) ∧
    (∃ r, pushAll (empty : SimpleVector Nat) [1, 2, 3] = some r ∧
      GetSize r = 3 ∧ GetCapacity r = 4 ∧ toList r = [1, 2, 3]) := by
  refine ⟨?_, ⟨⟨[1, 2, 3, 0], 3, 4⟩, by decide, rfl, rfl, by decide⟩⟩
  intro xs
  obtain ⟨r, hr, hwf, hg, hsz, hlist⟩ :=
    pushAll_spec xs (empty : SimpleVector α) ⟨rfl, Nat.le_refl _⟩ (Or.inl ⟨rfl, rfl⟩)
  have hsz2 : r.size_ = xs.length := by simpa [empty] using hsz
  refine ⟨r, hr, hsz2, by simpa [empty, toList] using hlist, ?_, ?_, ?_⟩
  · have := hwf.2
    show xs.length ≤ r.capacity_
    omega
  · intro h0
    rcases hg with ⟨_, hc⟩ | ⟨hpos, _⟩
    · exact hc
    · omega
  · intro hpos
    rcases hg with ⟨h0, _⟩ | ⟨_, k, hk, hle, hmin⟩
    · omega
    · exact ⟨k, hk, by omega, fun m hm => hmin m (by omega)⟩

/-! ## Insert and Erase -/

/-- C4: `Insert` of 9 at index 1 of [1, 2, 3], where the claim expects [1, 9, 2, 3] and
the position 1: whatever the call depth allowed, the call produces no result, because
`std::distance(cbegin(), pos)` (line 179) enters `cbegin()`, which calls itself. -/
theorem Insert_no_result :
    ∀ fuel, Insert fuel (⟨[1, 2, 3], 3, 3⟩ : SimpleVector Nat) 1 9 = none :=
  fun fuel => Insert_none fuel _ _ _

/-- C5: `Erase` at index 1 of [1, 2, 3, 4], where the claim expects [1, 3, 4] and the
position 1: whatever the call depth allowed, the call produces no result, because
`std::distance(cbegin(), pos)` (line 203) enters `cbegin()`, which calls itself. -/
theorem Erase_no_result :
    ∀ fuel, Erase fuel (⟨[1, 2, 3, 4], 4, 4⟩ : SimpleVector Nat) 1 = none :=
  fun fuel => Erase_none fuel _ _

/-- C6: `Insert` of 9 at index 1 of [1, 2, 3, 0] (size 3, capacity 4) followed by `Erase`
at the returned position, where the claim expects the sequence [1, 2, 3] again: whatever
the call depth allowed, the pair of calls produces no vector, the first call already
producing none. -/
theorem Insert_Erase_no_result :
    ∀ fuel, ((Insert fuel (⟨[1, 2, 3, 0], 3, 4⟩ : SimpleVector Nat) 1 9).bind
      fun r => Erase fuel r.1 r.2.1) = none := by
  intro fuel
  rw [Insert_none]
  rfl

/-! ## Resize and Reserve -/

theorem fillDefault_done [Inhabited α] (k : Nat) (buf : ArrayPtr α) (h : k < 2147483648) :
    fillDefault 4294967296 (toInt k) k buf = some buf := by
  rw [toInt_of_lt k h]
  show fillDefault (4294967295 + 1) (k : Int) k buf = some buf
  rw [fillDefault, toSizeT_natCast k h, if_neg (Nat.lt_irrefl k)]

theorem ResizeFill_of_le [Inhabited α] (w : SimpleVector α) (n : Nat) (buf : ArrayPtr α)
    (hc : n ≤ w.capacity_)
    (hfill : fillDefault 4294967296 (toInt w.size_) n w.items_ = some buf) :
    ResizeFill w n = some ⟨buf, n, w.capacity_⟩ := by
  rw [ResizeFill, if_pos hc, hfill]
  rfl

theorem ResizeGrow_of_le [Inhabited α] [Fresh α] (w : SimpleVector α) (n : Nat)
    (hc : n ≤ w.capacity_) : ResizeGrow w n = some w := by
  rw [ResizeGrow, if_neg (Nat.not_lt.mpr hc)]

theorem Resize_spec [Inhabited α] [Fresh α] (v : SimpleVector α) (n : Nat)
    (hwf : WellFormed v) (hn : n ≤ v.capacity_ → n < 2147483648) :
    ∃ r, Resize v n = some r ∧ WellFormed r ∧ r.size_ = n ∧
      r.capacity_ = (if n ≤ v.capacity_ then v.capacity_ else n) ∧
      (∀ i, i < min v.size_ n → r.items_[i]? = v.items_[i]?) ∧
      (∀ i, v.size_ ≤ i → i < n → r.items_[i]? = some default) := by
  obtain ⟨hlen, hle⟩ := hwf
  by_cases h1 : n ≤ v.size_
  · have hc : n ≤ v.capacity_ := by omega
    have hs : ResizeShrink v n = ⟨v.items_, n, v.capacity_⟩ := by
      rw [ResizeShrink, if_pos (by omega)]
    have hf : ResizeFill (⟨v.items_, n, v.capacity_⟩ : SimpleVector α) n
        = some ⟨v.items_, n, v.capacity_⟩ :=
      ResizeFill_of_le _ n v.items_ hc (fillDefault_done n v.items_ (hn hc))
    refine ⟨⟨v.items_, n, v.capacity_⟩, ?_, ⟨hlen, hc⟩, rfl, ?_, fun i _ => rfl, ?_⟩
    · rw [Resize, hs, hf]
      exact ResizeGrow_of_le _ n hc
    · show v.capacity_ = _
      rw [if_pos hc]
    · intro i h2 h3; omega
  · have hs : ResizeShrink v n = v := by
      rw [ResizeShrink, if_neg (by omega)]
    by_cases h2 : n ≤ v.capacity_
    · have hn1 := hn h2
      obtain ⟨buf, hbuf, hbl, hget⟩ :=
        fillDefault_spec (n - v.size_) v.size_ n 4294967296 v.items_ (by omega) (by omega)
          hn1 (by omega)
      rw [← toInt_of_lt v.size_ (by omega)] at hbuf
      have hf : ResizeFill v n = some ⟨buf, n, v.capacity_⟩ := ResizeFill_of_le v n buf h2 hbuf
      refine ⟨⟨buf, n, v.capacity_⟩, ?_, ⟨by show buf.length = v.capacity_; omega, h2⟩, rfl,
        ?_, ?_, ?_⟩
      · rw [Resize, hs, hf]
        exact ResizeGrow_of_le _ n h2
      · show v.capacity_ = _
        rw [if_pos h2]
      · intro i hi
        show buf[i]? = _
        rw [hget i, if_neg (by omega)]
      · intro i hi1 hi2
        show buf[i]? = _
        rw [hget i, if_pos (by omega)]
    · obtain ⟨r, hr, hsz, hcap, hl, hget⟩ := ChangeCapacity_spec v n (by omega) (by omega)
      have hf : ResizeFill v n = some v := by rw [ResizeFill, if_neg h2]
      have hg : ResizeGrow v n = some ⟨r.items_, n, r.capacity_⟩ := by
        rw [ResizeGrow, if_pos (by omega), hr]
        rfl
      refine ⟨⟨r.items_, n, r.capacity_⟩, ?_, ⟨by show r.items_.length = r.capacity_; omega,
        by show n ≤ r.capacity_; omega⟩, rfl, ?_, ?_, ?_⟩
      · rw [Resize, hs, hf]
        exact hg
      · show r.capacity_ = _
        rw [if_neg h2, hcap]
      · intro i hi
        show r.items_[i]? = _
        rw [hget i, if_pos (by omega)]
      · intro i hi1 hi2
        show r.items_[i]? = _
        rw [hget i, if_neg (by omega), if_pos hi2]

/-- On a vector whose buffer holds `capacity_` slots and whose size `s` does not exceed
its capacity `c`, for `n` below `2^31` or above `c`: `Resize(n)` returns a vector of size
`n`; the elements below `min s n` are unchanged, the elements at `s ≤ i < n` hold the
default value, and the capacity is `c` when `n ≤ c` and `n` when `n > c`. -/
theorem Resize_result [Inhabited α] [Fresh α] (v : SimpleVector α) (n : Nat)
    (hwf : WellFormed v) (hn : n ≤ GetCapacity v → n < 2147483648) :
    ∃ r, Resize v n = some r ∧ GetSize r = n ∧
      (∀ i, i < min (GetSize v) n → index r i = index v i) ∧
      (∀ i, GetSize v ≤ i → i < n → index r i = some default) ∧
      (n ≤ GetCapacity v → GetCapacity r = GetCapacity v) ∧
      (n > GetCapacity v → GetCapacity r = n) := by
  obtain ⟨r, hr, _, hsz, hcap, hkeep, hdef⟩ := Resize_spec v n hwf hn
  refine ⟨r, hr, hsz, hkeep, hdef, ?_, ?_⟩
  · intro h
    have h1 : n ≤ v.capacity_ := h
    show r.capacity_ = v.capacity_
    rw [hcap, if_pos h1]
  · intro h
    have h1 : ¬ n ≤ v.capacity_ := Nat.not_le.mpr h
    show r.capacity_ = n
    rw [hcap, if_neg h1]

theorem fillDefault_overflow [Inhabited α] :
    ∀ (m k fuel : Nat) (buf : ArrayPtr α), k + m = 2147483647 →
      2147483648 ≤ buf.length → m < fuel →
      fillDefault fuel (k : Int) 2147483648 buf = none := by
  intro m
  induction m with
  | zero =>
    intro k fuel buf hk hlen hfuel
    obtain ⟨f, rfl⟩ := Nat.exists_eq_succ_of_ne_zero (Nat.pos_iff_ne_zero.mp hfuel)
    have hkl : k < buf.length := by omega
    have hmax : (k : Int) = INT_MAX := by
      unfold INT_MAX
      omega
    rw [fillDefault, toSizeT_natCast k (by omega), if_pos (by omega),
      writeSlot_of_lt _ _ _ hkl]
    simp only [Option.bind_eq_bind, Option.some_bind]
    rw [if_pos hmax]
  | succ m ih =>
    intro k fuel buf hk hlen hfuel
    obtain ⟨f, rfl⟩ := Nat.exists_eq_succ_of_ne_zero (by omega : fuel ≠ 0)
    have hkl : k < buf.length := by omega
    have hmax : ¬ ((k : Int) = INT_MAX) := by
      unfold INT_MAX
      omega
    rw [fillDefault, toSizeT_natCast k (by omega), if_pos (by omega),
      writeSlot_of_lt _ _ _ hkl]
    simp only [Option.bind_eq_bind, Option.some_bind]
    rw [if_neg hmax]
    simpa using ih (k + 1) f (buf.set k default) (by omega) (by simp; omega) (by omega)

/-- With the `int` counter of line 129: `Resize(2^31)` on an empty vector of capacity
`2^31` writes the slots `0 .. 2^31 - 1` and then increments `INT_MAX`, so it does not
produce a vector. -/
theorem Resize_int_overflow [Inhabited α] [Fresh α] (buf : ArrayPtr α)
    (hlen : buf.length = 2147483648) :
    Resize (⟨buf, 0, 2147483648⟩ : SimpleVector α) 2147483648 = none := by
  have hs : ResizeShrink (⟨buf, 0, 2147483648⟩ : SimpleVector α) 2147483648
      = ⟨buf, 0, 2147483648⟩ := by
    rw [ResizeShrink, if_neg (by show ¬ (2147483648 < 0 ∨ 2147483648 = 0); omega)]
  have hfill : fillDefault 4294967296 (toInt 0) 2147483648 buf = none := by
    rw [toInt_of_lt 0 (by omega)]
    exact fillDefault_overflow 2147483647 0 4294967296 buf (by omega) (by omega) (by omega)
  have hf : ResizeFill (⟨buf, 0, 2147483648⟩ : SimpleVector α) 2147483648 = none := by
    rw [ResizeFill, if_pos (Nat.le_refl _)]
    show (fillDefault 4294967296 (toInt 0) 2147483648 buf).bind _ = none
    rw [hfill]
    rfl
  rw [Resize, hs, hf]
  rfl

/-- C8, as stated, fails: `Resize(1)` and then `Resize(3)` on [1, 2, 3] gives [1, 0, 0];
the element at index 1 was 2 and is now the default value 0. -/
theorem Resize_Resize_counterexample :
    ∃ r1 r2, Resize (⟨[1, 2, 3], 3, 3⟩ : SimpleVector Nat) 1 = some r1 ∧
      Resize r1 (GetSize (⟨[1, 2, 3], 3, 3⟩ : SimpleVector Nat)) = some r2 ∧
      index (⟨[1, 2, 3], 3, 3⟩ : SimpleVector Nat) 1 = some 2 ∧
      index r2 1 = some 0 ∧
      index r2 1 ≠ index (⟨[1, 2, 3], 3, 3⟩ : SimpleVector Nat) 1 :=
  ⟨⟨[1, 2, 3], 1, 3⟩, ⟨[1, 0, 0], 3, 3⟩, by decide, by decide, by decide, by decide,
    by decide⟩

/-- C8, amended: on a vector whose buffer holds exactly `capacity_` slots, with original
size `s ≤ capacity_` and `s` below `2^31`, and for `n` below `2^31` or above the
capacity, `Resize(n)` followed by `Resize(s)` returns a vector of size `s`; its elements
below `min s n` are the original ones, and its elements at `n ≤ i < s` hold the default
value.  So all original elements are back when `n ≥ s`. -/
theorem Resize_Resize [Inhabited α] [Fresh α] (v : SimpleVector α) (n : Nat)
    (hwf : WellFormed v) (hs : GetSize v < 2147483648)
    (hn : n ≤ GetCapacity v → n < 2147483648) :
    ∃ r1 r2, Resize v n = some r1 ∧ Resize r1 (GetSize v) = some r2 ∧
      GetSize r2 = GetSize v ∧
      (∀ i, i < min (GetSize v) n → index r2 i = index v i) ∧
      (∀ i, n ≤ i → i < GetSize v → index r2 i = some default) ∧
      (GetSize v ≤ n → ∀ i, i < GetSize v → index r2 i = index v i) := by
  obtain ⟨r1, h1, hwf1, hsz1, _, hkeep1, _⟩ := Resize_spec v n hwf hn
  obtain ⟨r2, h2, _, hsz2, _, hkeep2, hdef2⟩ := Resize_spec r1 v.size_ hwf1 (fun _ => hs)
  have hk : ∀ i, i < min v.size_ n → index r2 i = index v i := by
    intro i hi
    show r2.items_[i]? = v.items_[i]?
    rw [hkeep2 i (by omega), hkeep1 i hi]
  refine ⟨r1, r2, h1, h2, hsz2, hk, ?_, ?_⟩
  · intro i hi1 hi2
    exact hdef2 i (by omega) hi2
  · intro hge i hi
    exact hk i (by show i < min v.size_ n; have : i < v.size_ := hi; omega)

/-- C8 amended, at a concrete vector: `Resize(1)` then `Resize(3)` on [1, 2, 3]. -/
theorem Resize_Resize_witness :
    WellFormed (⟨[1, 2, 3], 3, 3⟩ : SimpleVector Nat) ∧
    GetSize (⟨[1, 2, 3], 3, 3⟩ : SimpleVector Nat) < 2147483648 ∧
    (1 ≤ GetCapacity (⟨[1, 2, 3], 3, 3⟩ : SimpleVector Nat) → 1 < 2147483648) ∧
    ∃ r1 r2, Resize (⟨[1, 2, 3], 3, 3⟩ : SimpleVector Nat) 1 = some r1 ∧
      Resize r1 (GetSize (⟨[1, 2, 3], 3, 3⟩ : SimpleVector Nat)) = some r2 ∧
      GetSize r2 = GetSize (⟨[1, 2, 3], 3, 3⟩ : SimpleVector Nat) ∧
      (∀ i, i < min (GetSize (⟨[1, 2, 3], 3, 3⟩ : SimpleVector Nat)) 1 →
        index r2 i = index (⟨[1, 2, 3], 3, 3⟩ : SimpleVector Nat) i) ∧
      (∀ i, 1 ≤ i → i < GetSize (⟨[1, 2, 3], 3, 3⟩ : SimpleVector Nat) →
        index r2 i = some default) ∧
      (GetSize (⟨[1, 2, 3], 3, 3⟩ : SimpleVector Nat) ≤ 1 →
        ∀ i, i < GetSize (⟨[1, 2, 3], 3, 3⟩ : SimpleVector Nat) →
          index r2 i = index (⟨[1, 2, 3], 3, 3⟩ : SimpleVector Nat) i) :=
  ⟨by decide, by decide, fun _ => by decide,
    Resize_Resize ⟨[1, 2, 3], 3, 3⟩ 1 (by decide) (by decide) (fun _ => by decide)⟩

/-- C10: `At(i)` throws `out_of_range` exactly when `i ≥ size`; when `i < size` it
returns what the unchecked `operator[]` returns; it is a read of the vector only.  On the
empty vector `At(0)` throws. -/
theorem At_result (v : SimpleVector α) (i : Nat) :
    (At v i = Except.error Error.out_of_range ↔ i ≥ GetSize v) ∧
    (i < GetSize v → At v i = Except.ok (index v i)) ∧
    At (empty : SimpleVector α) 0 = Except.error Error.out_of_range := by
  refine ⟨?_, ?_, ?_⟩
  · by_cases h : i ≥ v.size_
    · simp [At, GetSize, h]
    · simp [At, GetSize, h]
  · intro h
    have h1 : ¬ i ≥ v.size_ := Nat.not_le.mpr h
    simp [At, index, h1]
  · simp [At, empty]

end SimpleVector

namespace SimpleVector

variable {α : Type}

/-! ## Constructors -/

theorem std_fill_spec (value : α) :
    ∀ (n i : Nat) (buf : ArrayPtr α), i + n ≤ buf.length →
      ∃ r, std_fill n i buf value = some r ∧ r.length = buf.length ∧
        ∀ j, r[j]? = if i ≤ j ∧ j < i + n then some value else buf[j]? := by
  intro n
  induction n with
  | zero =>
    intro i buf _
    refine ⟨buf, rfl, rfl, ?_⟩
    intro j
    rw [if_neg (by omega)]
  | succ k ih =>
    intro i buf hb
    have hil : i < buf.length := by omega
    obtain ⟨r, hr, hlen, hget⟩ := ih (i + 1) (buf.set i value) (by simp; omega)
    refine ⟨r, ?_, ?_, ?_⟩
    · rw [std_fill, writeSlot_of_lt _ _ _ hil]
      simpa using hr
    · simpa using hlen
    · intro j
      rw [hget j, List.getElem?_set]
      by_cases h1 : i + 1 ≤ j ∧ j < i + 1 + k
      · have h2 : i ≤ j ∧ j < i + (k + 1) := by omega
        simp [h1, h2]
      · by_cases h4 : i = j
        · subst h4
          have h2 : i ≤ i ∧ i < i + (k + 1) := by omega
          simp [h1, h2, hil]
        · have h2 : ¬ (i ≤ j ∧ j < i + (k + 1)) := by omega
          simp [h1, h2, h4]

theorem mkSizeCopy_spec [Inhabited α] [Fresh α] (n : Nat) (x : α) :
    ∃ r, mkSizeCopy n x = some r ∧ r.size_ = n ∧ r.capacity_ = n ∧ r.items_.length = n ∧
      ∀ i, i < n → r.items_[i]? = some x := by
  obtain ⟨buf, hbuf, hlen, hget⟩ :=
    std_fill_spec x n 0 (ArrayPtr.alloc n : ArrayPtr α) (by rw [alloc_length]; omega)
  refine ⟨⟨buf, n, n⟩, ?_, rfl, rfl, ?_, ?_⟩
  · simp [mkSizeCopy, end_, begin, hbuf]
  · rw [hlen, alloc_length]
  · intro i hi
    show buf[i]? = some x
    rw [hget i, if_pos (by omega)]

theorem fillMoved_length [Inhabited α] :
    ∀ (n i : Nat) (buf : ArrayPtr α) (value : α), i + n ≤ buf.length →
      ∃ r, fillMoved n i buf value = some r ∧ r.1.length = buf.length := by
  intro n
  induction n with
  | zero => intro i buf value _; exact ⟨(buf, value), rfl, rfl⟩
  | succ k ih =>
    intro i buf value hb
    have hil : i < buf.length := by omega
    obtain ⟨r, hr, hlen⟩ := ih (i + 1) (buf.set i value) default (by simp; omega)
    refine ⟨r, ?_, by simpa using hlen⟩
    rw [fillMoved, writeSlot_of_lt _ _ _ hil]
    simpa using hr

theorem mkSizeMove_spec [Inhabited α] [Fresh α] (n : Nat) (x : α) :
    ∃ r, mkSizeMove n x = some r ∧ r.1.size_ = n ∧ r.1.capacity_ = n ∧
      r.1.items_.length = n := by
  obtain ⟨b, hb, hlen⟩ :=
    fillMoved_length n 0 (ArrayPtr.alloc n : ArrayPtr α) x (by rw [alloc_length]; omega)
  refine ⟨(⟨b.1, n, n⟩, b.2), ?_, rfl, rfl, by rw [hlen, alloc_length]⟩
  simp [mkSizeMove, hb]

theorem ofInitializerList_spec [Inhabited α] [Fresh α] (init : List α) :
    ofInitializerList init = some ⟨init, init.length, init.length⟩ := by
  obtain ⟨buf, hbuf, hlen, hget⟩ :=
    std_move_spec init init.length 0 (ArrayPtr.alloc init.length : ArrayPtr α) 0
      (by omega) (by rw [alloc_length]; omega)
  have hb : buf = init := by
    apply List.ext_getElem?
    intro j
    rw [hget j]
    by_cases hj : j < init.length
    · rw [if_pos (by omega)]
      simp
    · rw [if_neg (by omega), List.getElem?_eq_none (by rw [alloc_length]; omega)]
      exact (List.getElem?_eq_none (by omega)).symm
  simp [ofInitializerList, hbuf, hb]

/-- C11: the constructor taking the value as a temporary, called with size 3 and value
7, where the claim expects [7, 7, 7]: it returns [7, 0, 0], because the loop resets
`value` to `Type{}` after the first slot (line 44).  The constructor taking
`const Type&` returns [7, 7, 7]. -/
theorem mkSizeMove_first_slot_only :
    mkSizeMove 3 (7 : Nat) = some (⟨[7, 0, 0], 3, 3⟩, 0) ∧
    (∃ r, mkSizeMove 3 (7 : Nat) = some r ∧ index r.1 1 = some 0 ∧ index r.1 1 ≠ some 7) ∧
    mkSizeCopy 3 (7 : Nat) = some ⟨[7, 7, 7], 3, 3⟩ := by
  refine ⟨by decide, ⟨(⟨[7, 0, 0], 3, 3⟩, 0), by decide, by decide, by decide⟩, by decide⟩

/-- C12: the constructor `SimpleVector(n)` returns a vector with size `n` and capacity
`n` whose elements at every index below `n` hold the default value. -/
theorem mkSize_default [Inhabited α] [Fresh α] (n : Nat) :
    ∃ r : SimpleVector α, mkSize n = some r ∧ GetSize r = n ∧ GetCapacity r = n ∧
      ∀ i, i < n → index r i = some default := by
  refine ⟨⟨List.replicate n default, n, n⟩, mkSize_eq n, rfl, rfl, ?_⟩
  intro i hi
  show (List.replicate n (default : α))[i]? = some default
  rw [List.getElem?_replicate, if_pos hi]

/-! ## Copy, move and comparison -/

theorem end_const_none (v : SimpleVector α) : ∀ fuel, end_const fuel v = none := by
  intro fuel
  induction fuel with
  | zero => rfl
  | succ k ih => rw [end_const, ih]

theorem cend_none (v : SimpleVector α) : ∀ fuel, cend fuel v = none := by
  intro fuel
  cases fuel with
  | zero => rfl
  | succ k => rw [cend, end_const_none]

theorem copyCtor_none [Inhabited α] [Fresh α] (fuel : Nat) (other : SimpleVector α) :
    copyCtor fuel other = none := by
  simp [copyCtor, end_const_none]

theorem opEq_none [DecidableEq α] (fuel : Nat) (lhs rhs : SimpleVector α) :
    opEq fuel lhs rhs = none := by
  simp [opEq, cbegin_none]

theorem opLt_none [LT α] [∀ a b : α, Decidable (a < b)] (fuel : Nat)
    (lhs rhs : SimpleVector α) : opLt fuel lhs rhs = none := by
  simp [opLt, cbegin_none]

/-- C13: copy construction from [1, 2, 3], where the claim expects a vector of size 3
and capacity 3 equal to the source: whatever the call depth allowed, the constructor
produces no vector, because `other.end()` (line 58) is the const `end()`, which calls
itself (line 240); the comparison `c == v` produces no answer either. -/
theorem copyCtor_no_result :
    ∀ fuel, copyCtor fuel (⟨[1, 2, 3], 3, 3⟩ : SimpleVector Nat) = none ∧
      opEq fuel (⟨[1, 2, 3], 3, 3⟩ : SimpleVector Nat) ⟨[1, 2, 3], 3, 3⟩ = none :=
  fun fuel => ⟨copyCtor_none fuel _, opEq_none fuel _ _⟩

/-- C14: move construction returns a destination with the size, the capacity, the slots
and the logical sequence the source had, and leaves the source with size 0. -/
theorem moveCtor_result [Inhabited α] [Fresh α] (v : SimpleVector α) :
    GetSize (moveCtor v).1 = GetSize v ∧ GetCapacity (moveCtor v).1 = GetCapacity v ∧
    (∀ i, index (moveCtor v).1 i = index v i) ∧ toList (moveCtor v).1 = toList v ∧
    GetSize (moveCtor v).2 = 0 :=
  ⟨rfl, rfl, fun _ => rfl, rfl, rfl⟩

/-- C15: `a == b` on two vectors both holding [1, 2], where the claim expects `true`:
whatever the call depth allowed, the comparison produces no answer, because
`lhs.cbegin()` (line 265) calls itself (line 243). -/
theorem opEq_no_result :
    ∀ fuel, opEq fuel (⟨[1, 2], 2, 2⟩ : SimpleVector Nat) ⟨[1, 2], 2, 2⟩ = none :=
  fun fuel => opEq_none fuel _ _

/-- C16: the comparisons of [1] with [1, 2], where the claim expects `a < b`, `a <= b`
and `a != b` to be true and `a > b`, `a >= b` to be false: whatever the call depth
allowed, none of the five operators produces an answer, because `cbegin()` (line 243)
calls itself. -/
theorem opLt_no_result :
    ∀ fuel, opLt fuel (⟨[1], 1, 1⟩ : SimpleVector Nat) ⟨[1, 2], 2, 2⟩ = none ∧
      opLe fuel (⟨[1], 1, 1⟩ : SimpleVector Nat) ⟨[1, 2], 2, 2⟩ = none ∧
      opGt fuel (⟨[1], 1, 1⟩ : SimpleVector Nat) ⟨[1, 2], 2, 2⟩ = none ∧
      opGe fuel (⟨[1], 1, 1⟩ : SimpleVector Nat) ⟨[1, 2], 2, 2⟩ = none ∧
      opNe fuel (⟨[1], 1, 1⟩ : SimpleVector Nat) ⟨[1, 2], 2, 2⟩ = none := by
  intro fuel
  simp [opLe, opGt, opGe, opNe, opLt_none, opEq_none]

/-- C19: on the vector [1, 2, 3] the const `begin()` denotes index 0, but whatever the
call depth allowed, `cbegin()`, the const `end()` and `cend()` produce no position:
`cbegin()` and the const `end()` call themselves (lines 243, 240) and `cend()` calls the
const `end()` (line 246). -/
theorem const_bounds_no_result :
    begin_const (⟨[1, 2, 3], 3, 3⟩ : SimpleVector Nat) = 0 ∧
    ∀ fuel, cbegin fuel (⟨[1, 2, 3], 3, 3⟩ : SimpleVector Nat) = none ∧
      end_const fuel (⟨[1, 2, 3], 3, 3⟩ : SimpleVector Nat) = none ∧
      cend fuel (⟨[1, 2, 3], 3, 3⟩ : SimpleVector Nat) = none :=
  ⟨rfl, fun fuel => ⟨cbegin_none _ fuel, end_const_none _ fuel, cend_none _ fuel⟩⟩

/-! ## The invariants -/

theorem constructors_WellFormed [Inhabited α] [Fresh α] (n : Nat) (x : α) (init : List α)
    (obj : ReserveProxyObj) :
    WellFormed (empty : SimpleVector α) ∧
    (∃ r : SimpleVector α, mkSize n = some r ∧ WellFormed r) ∧
    (∃ r, mkSizeCopy n x = some r ∧ WellFormed r) ∧
    (∃ r, mkSizeMove n x = some r ∧ WellFormed r.1) ∧
    (∃ r, ofInitializerList init = some r ∧ WellFormed r) ∧
    WellFormed (ofReserveProxyObj obj : SimpleVector α) := by
  refine ⟨⟨rfl, Nat.le_refl _⟩, ?_, ?_, ?_, ?_, ?_⟩
  · exact ⟨_, mkSize_eq n, by simp [WellFormed]⟩
  · obtain ⟨r, hr, hsz, hcap, hlen, _⟩ := mkSizeCopy_spec n x
    exact ⟨r, hr, by rw [WellFormed]; omega⟩
  · obtain ⟨r, hr, hsz, hcap, hlen⟩ := mkSizeMove_spec n x
    exact ⟨r, hr, by rw [WellFormed]; omega⟩
  · exact ⟨_, ofInitializerList_spec init, by simp [WellFormed]⟩
  · simp [WellFormed, ofReserveProxyObj, ArrayPtr.alloc]

theorem operations_WellFormed [Inhabited α] [Fresh α] (v w : SimpleVector α)
    (hv : WellFormed v) (hw : WellFormed w) (n : Nat) (x : α)
    (hn : n ≤ v.capacity_ → n < 2147483648) :
    WellFormed (Clear v) ∧ WellFormed (PopBack v) ∧
    WellFormed (swap v w).1 ∧ WellFormed (swap v w).2 ∧ WellFormed (moveCtor v).1 ∧
    (∃ r, Resize v n = some r ∧ WellFormed r) ∧
    (∃ r, Reserve v n = some r ∧ WellFormed r) ∧
    (∃ r, PushBack v x = some r ∧ WellFormed r) := by
  have hv1 := hv.1
  have hv2 := hv.2
  refine ⟨⟨hv1, Nat.zero_le _⟩, ?_, hw, hv, hv, ?_, ?_, ?_⟩
  · unfold PopBack
    split
    · exact hv
    · exact ⟨hv1, by show v.size_ - 1 ≤ v.capacity_; omega⟩
  · obtain ⟨r, hr, hwf, _⟩ := Resize_spec v n hv hn
    exact ⟨r, hr, hwf⟩
  · by_cases h : v.capacity_ < n
    · obtain ⟨r, hr, hsz, hcap, hlen, _⟩ := ChangeCapacity_spec v n (by omega) (by omega)
      exact ⟨r, by rw [Reserve, if_pos h, hr], by rw [WellFormed]; omega⟩
    · exact ⟨v, by rw [Reserve, if_neg h], hv⟩
  · obtain ⟨r, hr, _, hsz, hlen, hcap, _⟩ := PushBack_spec v x hv
    refine ⟨r, hr, hlen, ?_⟩
    rw [hsz, hcap]
    by_cases hfull : v.size_ = v.capacity_
    · rw [if_pos hfull]; omega
    · rw [if_neg hfull]; omega

/-- C17: move construction from the vector holding [1] with capacity 4 (buffer
[1, 0, 0, 0]), where the claim expects the moved-from source to hold `capacity` slots:
the source is left with the 1-slot buffer allocated at line 61 and its old `capacity_`
4, so index 1 is below its capacity but outside its buffer, and two `PushBack` calls on
it leave the allocation. -/
theorem moveCtor_source_slots :
    WellFormed (⟨[1, 0, 0, 0], 1, 4⟩ : SimpleVector Nat) ∧
    (moveCtor (⟨[1, 0, 0, 0], 1, 4⟩ : SimpleVector Nat)).2 = ⟨ArrayPtr.alloc 1, 0, 4⟩ ∧
    GetCapacity (moveCtor (⟨[1, 0, 0, 0], 1, 4⟩ : SimpleVector Nat)).2 = 4 ∧
    (moveCtor (⟨[1, 0, 0, 0], 1, 4⟩ : SimpleVector Nat)).2.items_.length = 1 ∧
    index (moveCtor (⟨[1, 0, 0, 0], 1, 4⟩ : SimpleVector Nat)).2 1 = none ∧
    ((PushBack (moveCtor (⟨[1, 0, 0, 0], 1, 4⟩ : SimpleVector Nat)).2 5).bind
      fun v => PushBack v 6) = none := by
  refine ⟨by decide, by decide, by decide, by decide, by decide, by decide⟩

/-- C18: `Insert`, `Erase`, copy construction and copy assignment on the vector [1, 2]
(size 2, capacity 2), where the claim expects each to yield a vector with
`size <= capacity`: whatever the call depth allowed, none of them yields a vector,
because they enter `cbegin()` or the const `end()`, which call themselves. -/
theorem size_le_capacity_no_result :
    ∀ fuel, Insert fuel (⟨[1, 2], 2, 2⟩ : SimpleVector Nat) 0 5 = none ∧
      Erase fuel (⟨[1, 2], 2, 2⟩ : SimpleVector Nat) 0 = none ∧
      copyCtor fuel (⟨[1, 2], 2, 2⟩ : SimpleVector Nat) = none ∧
      assign fuel (empty : SimpleVector Nat) ⟨[1, 2], 2, 2⟩ = none := by
  intro fuel
  refine ⟨Insert_none fuel _ _ _, Erase_none fuel _ _, copyCtor_none fuel _, ?_⟩
  simp [assign, IsEmpty, copyCtor_none]

/-! ## PushBack into reserved capacity -/

theorem pushAll_within_capacity [Inhabited α] [Fresh α] (xs : List α) :
    ∀ v : SimpleVector α, WellFormed v → v.size_ + xs.length ≤ v.capacity_ →
      ∃ r, pushAll v xs = some r ∧ WellFormed r ∧ r.capacity_ = v.capacity_ ∧
        r.size_ = v.size_ + xs.length ∧ toList r = toList v ++ xs := by
  induction xs with
  | nil =>
    intro v hwf _
    exact ⟨v, rfl, hwf, rfl, by simp, by simp⟩
  | cons x xs ih =>
    intro v hwf hroom
    simp only [List.length_cons] at hroom
    obtain ⟨r1, h1, _, hsz, hl, hcap, hget, hx⟩ := PushBack_spec v x hwf
    have hcap1 : r1.capacity_ = v.capacity_ := by
      rw [hcap, if_neg (by omega)]
    have hwf1 : WellFormed r1 := ⟨hl, by omega⟩
    obtain ⟨r, hr, hwfr, hcapr, hszr, hlist⟩ := ih r1 hwf1 (by omega)
    refine ⟨r, ?_, hwfr, by omega, ?_, ?_⟩
    · simp [pushAll, h1, hr]
    · simp only [List.length_cons]; omega
    · rw [hlist, toList_snoc v r1 x (by have := hwf.1; have := hwf.2; omega) hsz hget hx]
      simp

end SimpleVector

/-- C20: the vector constructed from the capacity hint `Reserve(c)` has size 0 and
capacity `c`; after `PushBack` of `K ≤ c` values in turn it has size `K`, the values as
its logical sequence in order, and capacity `c` still. -/
theorem reserved_pushAll {α : Type} [Inhabited α] [SimpleVector.Fresh α] (c : Nat) (xs : List α)
    (h : xs.length ≤ c) :
    SimpleVector.GetSize (SimpleVector.ofReserveProxyObj (Reserve c) : SimpleVector α) = 0 ∧
    SimpleVector.GetCapacity
      (SimpleVector.ofReserveProxyObj (Reserve c) : SimpleVector α) = c ∧
    ∃ r, SimpleVector.pushAll
        (SimpleVector.ofReserveProxyObj (Reserve c) : SimpleVector α) xs = some r ∧
      SimpleVector.GetSize r = xs.length ∧ SimpleVector.toList r = xs ∧
      SimpleVector.GetCapacity r = c := by
  have hwf : SimpleVector.WellFormed
      (SimpleVector.ofReserveProxyObj (Reserve c) : SimpleVector α) := by
    simp [SimpleVector.WellFormed, SimpleVector.ofReserveProxyObj, SimpleVector.ArrayPtr.alloc]
  obtain ⟨r, hr, _, hcap, hsz, hlist⟩ :=
    SimpleVector.pushAll_within_capacity xs _ hwf
      (by simpa [SimpleVector.ofReserveProxyObj, Reserve, ReserveProxyObj.GetCapacity] using h)
  refine ⟨rfl, rfl, r, hr, ?_, ?_, ?_⟩
  · simpa [SimpleVector.ofReserveProxyObj] using hsz
  · simpa [SimpleVector.ofReserveProxyObj, SimpleVector.toList] using hlist
  · simpa [SimpleVector.ofReserveProxyObj, Reserve, ReserveProxyObj.GetCapacity] using hcap

/-- C20, at a concrete input: capacity hint 5 and the values 1, 2, 3. -/
theorem reserved_pushAll_witness :
    [1, 2, 3].length ≤ 5 ∧
    SimpleVector.GetSize (SimpleVector.ofReserveProxyObj (Reserve 5) : SimpleVector Nat) = 0 ∧
    SimpleVector.GetCapacity
      (SimpleVector.ofReserveProxyObj (Reserve 5) : SimpleVector Nat) = 5 ∧
    ∃ r, SimpleVector.pushAll
        (SimpleVector.ofReserveProxyObj (Reserve 5) : SimpleVector Nat) [1, 2, 3] = some r ∧
      SimpleVector.GetSize r = [1, 2, 3].length ∧ SimpleVector.toList r = [1, 2, 3] ∧
      SimpleVector.GetCapacity r = 5 :=
  ⟨by decide, reserved_pushAll 5 [1, 2, 3] (by decide)⟩

/-- C1: `PushBack(7)`, by either overload, on the source of a move construction from the
vector built with the capacity hint `Reserve(4)`, where the claim expects a vector of
size 1 holding 7: the source is left with size 0 and `capacity_` 4, so `size <= capacity`
holds, but its buffer is the 0-slot one allocated at line 61, so the write to `items_[0]`
(lines 144, 151) is outside the allocation and no vector results. -/
theorem PushBack_moved_from_no_result :
    (SimpleVector.moveCtor
      (SimpleVector.ofReserveProxyObj (Reserve 4) : SimpleVector Nat)).2 = ⟨[], 0, 4⟩ ∧
    SimpleVector.GetSize (SimpleVector.moveCtor
      (SimpleVector.ofReserveProxyObj (Reserve 4) : SimpleVector Nat)).2 ≤
      SimpleVector.GetCapacity (SimpleVector.moveCtor
        (SimpleVector.ofReserveProxyObj (Reserve 4) : SimpleVector Nat)).2 ∧
    SimpleVector.PushBack (SimpleVector.moveCtor
      (SimpleVector.ofReserveProxyObj (Reserve 4) : SimpleVector Nat)).2 7 = none ∧
    SimpleVector.PushBackMove (SimpleVector.moveCtor
      (SimpleVector.ofReserveProxyObj (Reserve 4) : SimpleVector Nat)).2 7 = none := by
  refine ⟨by decide, by decide, by decide, by decide⟩

/-- C7: `Resize(2)` on the source of a move construction from the vector built with the
capacity hint `Reserve(4)`, where the claim expects a vector of size 2 holding two
default values with capacity 4: the source has size 0 and `capacity_` 4 (`s <= c` holds)
but a 0-slot buffer, so `2 <= capacity_` sends the call into the loop of lines 129-131,
whose first write to `items_[0]` is outside the allocation, and no vector results. -/
theorem Resize_moved_from_no_result :
    (SimpleVector.moveCtor
      (SimpleVector.ofReserveProxyObj (Reserve 4) : SimpleVector Nat)).2 = ⟨[], 0, 4⟩ ∧
    SimpleVector.GetSize (SimpleVector.moveCtor
      (SimpleVector.ofReserveProxyObj (Reserve 4) : SimpleVector Nat)).2 ≤
      SimpleVector.GetCapacity (SimpleVector.moveCtor
        (SimpleVector.ofReserveProxyObj (Reserve 4) : SimpleVector Nat)).2 ∧
    SimpleVector.Resize (SimpleVector.moveCtor
      (SimpleVector.ofReserveProxyObj (Reserve 4) : SimpleVector Nat)).2 2 = none := by
  refine ⟨by decide, by decide, by decide⟩
